import Mathlib

/-!
Verification of the go-neat repository (package `neat`, files `dna.go` and
`evolve.go`) against its natural-language specification.

The development has two fidelity layers.

* `Codec`: a byte-level model of the textual genome codec.  Go strings are
  byte sequences, modelled as `List Nat` (`GoStr`); each byte constant is
  written as its ASCII code (59 = semicolon, 44 = comma, 110 = the letter n,
  99 = the letter c, 48..57 = decimal digits, 97..102 = lowercase hex
  letters).  A float64 weight is modelled by its IEEE-754 bit pattern
  (a `Nat` below 2^64), which is exactly what the codec manipulates:
  `encode` prints `math.Float64bits(weight)` in hex and decode reads the
  bytes back with `binary.Read`.

* `Evo`: a gene-level model of mutation, speciation and the population
  scheduler.  Float64 arithmetic on weights and fitnesses is modelled by
  exact rational arithmetic (`ℚ`); the global `math/rand` source is
  modelled by an explicit oracle (`Rng`) holding one stream for
  `rand.Float64` draws (values in `[0,1)`) and one stream for `rand.Intn`
  draws (an arbitrary natural, reduced modulo the requested bound, which
  reaches exactly the values `rand.Intn` can return).  `rand.Intn(n)`
  panics in Go when `n = 0`; the model totalises this case (`x % 0 = x`)
  and every theorem below stays away from it.

The `Brain` evaluator works over real numbers (`ℝ`) because its
activation function is the transcendental `1 / (1 + exp (-5 x))`.
-/

/-- A Go string, viewed as its byte sequence. -/
abbrev GoStr := List Nat

/-- Base-`b` digits of `n`, least significant first, computed with explicit
structural fuel so that concrete instances reduce in the kernel.  `fuel ≥ n`
makes the result independent of `fuel` (proved below). -/
def digitsFuel (b : Nat) : Nat → Nat → List Nat
  | 0, _ => []
  | _ + 1, 0 => []
  | fuel + 1, n + 1 => (n + 1) % b :: digitsFuel b fuel ((n + 1) / b)

/-- Base-`b` digits of `n`, least significant first. -/
def natDigits (b n : Nat) : List Nat := digitsFuel b n n

theorem digitsFuel_zero (b : Nat) : ∀ f, digitsFuel b f 0 = [] := by
  intro f; cases f <;> rfl

theorem digitsFuel_congr (b : Nat) (hb : 2 ≤ b) :
    ∀ n f f', n ≤ f → n ≤ f' → digitsFuel b f n = digitsFuel b f' n := by
  intro n
  induction n using Nat.strong_induction_on with
  | _ n ih =>
    intro f f' hf hf'
    match n, f, f', hf, hf' with
    | 0, f, f', _, _ => rw [digitsFuel_zero, digitsFuel_zero]
    | m + 1, f + 1, f' + 1, hf, hf' =>
      show (m + 1) % b :: digitsFuel b f ((m + 1) / b)
          = (m + 1) % b :: digitsFuel b f' ((m + 1) / b)
      have hlt : (m + 1) / b < m + 1 :=
        Nat.div_lt_self (Nat.succ_pos m) (by omega)
      have h1 : (m + 1) / b ≤ f := by omega
      have h2 : (m + 1) / b ≤ f' := by omega
      rw [ih _ hlt _ _ h1 h2]

theorem natDigits_succ (b : Nat) (hb : 2 ≤ b) (n : Nat) :
    natDigits b (n + 1) = (n + 1) % b :: natDigits b ((n + 1) / b) := by
  show digitsFuel b (n + 1) (n + 1) = (n + 1) % b :: natDigits b ((n + 1) / b)
  show (n + 1) % b :: digitsFuel b n ((n + 1) / b) = _
  have hlt : (n + 1) / b < n + 1 := Nat.div_lt_self (Nat.succ_pos n) (by omega)
  rw [digitsFuel_congr b hb ((n + 1) / b) n ((n + 1) / b) (by omega) (le_refl _)]
  rfl

theorem natDigits_lt_base (b : Nat) (hb : 2 ≤ b) :
    ∀ n d, d ∈ natDigits b n → d < b := by
  intro n
  induction n using Nat.strong_induction_on with
  | _ n ih =>
    intro d hd
    match n with
    | 0 => simp [natDigits, digitsFuel] at hd
    | m + 1 =>
      rw [natDigits_succ b hb] at hd
      rcases List.mem_cons.mp hd with h | h
      · subst h; exact Nat.mod_lt _ (by omega)
      · exact ih _ (Nat.div_lt_self (Nat.succ_pos m) (by omega)) _ h

theorem natDigits_ne_nil (b : Nat) (hb : 2 ≤ b) (n : Nat) (hn : n ≠ 0) :
    natDigits b n ≠ [] := by
  match n with
  | 0 => exact absurd rfl hn
  | m + 1 => rw [natDigits_succ b hb]; exact List.cons_ne_nil _ _

/-- Horner evaluation of a most-significant-first digit list, with
accumulator. -/
theorem foldl_reverse_natDigits (b : Nat) (hb : 2 ≤ b) :
    ∀ n a, ((natDigits b n).reverse.foldl (fun acc d => b * acc + d) a)
      = a * b ^ (natDigits b n).length + n := by
  intro n
  induction n using Nat.strong_induction_on with
  | _ n ih =>
    intro a
    match n with
    | 0 => simp [natDigits, digitsFuel]
    | m + 1 =>
      rw [natDigits_succ b hb]
      have hlt : (m + 1) / b < m + 1 := Nat.div_lt_self (Nat.succ_pos m) (by omega)
      simp only [List.reverse_cons, List.foldl_append, List.foldl_cons,
        List.foldl_nil, List.length_cons]
      rw [ih _ hlt a]
      have : b * (a * b ^ (natDigits b ((m + 1) / b)).length + (m + 1) / b)
            + (m + 1) % b
          = a * b ^ ((natDigits b ((m + 1) / b)).length + 1)
            + (b * ((m + 1) / b) + (m + 1) % b) := by ring
      rw [this, Nat.div_add_mod]

/-- If `n < b ^ k` then `n` has at most `k` base-`b` digits. -/
theorem natDigits_length_le (b : Nat) (hb : 2 ≤ b) :
    ∀ k n, n < b ^ k → (natDigits b n).length ≤ k := by
  intro k
  induction k with
  | zero =>
    intro n hn
    have : n = 0 := by simpa using hn
    subst this; simp [natDigits, digitsFuel]
  | succ k ih =>
    intro n hn
    match n with
    | 0 => simp [natDigits, digitsFuel]
    | m + 1 =>
      rw [natDigits_succ b hb, List.length_cons]
      have hq : (m + 1) / b < b ^ k := by
        rw [Nat.div_lt_iff_lt_mul (by omega)]
        calc m + 1 < b ^ (k + 1) := hn
        _ = b ^ k * b := by rw [Nat.pow_succ]
      exact Nat.succ_le_succ (ih _ hq)

/-- If `b ^ k ≤ n` then `n` has more than `k` base-`b` digits. -/
theorem natDigits_length_gt (b : Nat) (hb : 2 ≤ b) :
    ∀ k n, b ^ k ≤ n → k < (natDigits b n).length := by
  intro k
  induction k with
  | zero =>
    intro n hn
    have hn0 : n ≠ 0 := by intro h; subst h; simp at hn
    have := natDigits_ne_nil b hb n hn0
    cases h : natDigits b n with
    | nil => exact absurd h this
    | cons x xs => simp [h]
  | succ k ih =>
    intro n hn
    have hn0 : n ≠ 0 := by
      intro h; subst h
      have : 0 < b ^ (k + 1) := Nat.pos_pow_of_pos _ (by omega)
      omega
    match n, hn0 with
    | m + 1, _ =>
      rw [natDigits_succ b hb, List.length_cons]
      have hq : b ^ k ≤ (m + 1) / b := by
        rw [Nat.le_div_iff_mul_le (by omega)]
        calc b ^ k * b = b ^ (k + 1) := (Nat.pow_succ b k).symm
        _ ≤ m + 1 := hn
      exact Nat.succ_lt_succ (ih _ hq)

/-- ASCII decimal-digit test, as a predicate on bytes (`'0'..'9'`). -/
def isGoDigit (c : Nat) : Bool := 48 ≤ c && c ≤ 57

/-- `strconv.Atoi` restricted to the inputs the codec can produce: a
nonempty all-digit byte string parses to its decimal value; on any other
input `Atoi` returns an error, the caller ignores it and keeps the zero
value. -/
def parseNat (s : GoStr) : Nat :=
  if s ≠ [] ∧ s.all isGoDigit then s.foldl (fun a c => 10 * a + (c - 48)) 0 else 0

/-- `fmt` verb `%d` applied to a nonnegative integer: minimal-width
decimal, `0` prints as the single byte `48`. -/
def natToString (n : Nat) : GoStr :=
  if n = 0 then [48] else (natDigits 10 n).reverse.map (fun d => 48 + d)

/-- Hex digit byte for a value below 16 (`%x` uses lowercase letters). -/
def hexDigitChar (d : Nat) : Nat := if d < 10 then 48 + d else 87 + d

/-- `fmt` verb `%x` applied to a `uint64`: minimal-width lowercase hex,
`0` prints as the single byte `48`.  Note: no zero padding. -/
def natToHex (n : Nat) : GoStr :=
  if n = 0 then [48] else (natDigits 16 n).reverse.map hexDigitChar

/-- ASCII hex-digit test (`0..9`, `a..f`, `A..F`), as `encoding/hex`
accepts. -/
def isGoHexDigit (c : Nat) : Bool :=
  (48 ≤ c && c ≤ 57) || (97 ≤ c && c ≤ 102) || (65 ≤ c && c ≤ 70)

/-- Value of a hex digit byte. -/
def hexVal (c : Nat) : Nat := if 97 ≤ c then c - 87 else if 65 ≤ c then c - 55 else c - 48

/-- Model of `hex.DecodeString` followed by `binary.Read(..., BigEndian, &w)`
on a `float64`: only a string of exactly 16 hex digits yields the 8 bytes
`binary.Read` needs, and then `w` receives their big-endian value.  On any
shorter (or odd, or invalid) field fewer than 8 bytes are decoded,
`binary.Read` fails, the caller ignores the error and `w` keeps its zero
value — so those fields parse to the bit pattern 0. -/
def parseHex16 (s : GoStr) : Nat :=
  if s.length = 16 ∧ s.all isGoHexDigit then s.foldl (fun a c => 16 * a + hexVal c) 0 else 0

theorem foldl_ext_on {α β : Type} (f g : α → β → α) :
    ∀ (l : List β) (a : α), (∀ x ∈ l, ∀ acc, f acc x = g acc x) →
      l.foldl f a = l.foldl g a := by
  intro l
  induction l with
  | nil => intro a _; rfl
  | cons x xs ih =>
    intro a h
    simp only [List.foldl_cons]
    rw [h x (List.mem_cons_self x xs) a]
    exact ih _ (fun y hy acc => h y (List.mem_cons_of_mem x hy) acc)

theorem parseNat_natToString (n : Nat) : parseNat (natToString n) = n := by
  by_cases h0 : n = 0
  · subst h0; rfl
  · have hb : (2 : Nat) ≤ 10 := by omega
    have hne := natDigits_ne_nil 10 hb n h0
    have hdig := natDigits_lt_base 10 hb n
    unfold natToString
    rw [if_neg h0]
    unfold parseNat
    rw [if_pos ?_]
    · rw [List.foldl_map]
      have heq : ((natDigits 10 n).reverse.foldl
          (fun a d => 10 * a + (48 + d - 48)) 0)
          = ((natDigits 10 n).reverse.foldl (fun a d => 10 * a + d) 0) := by
        apply foldl_ext_on
        intro d _ acc; omega
      rw [heq, foldl_reverse_natDigits 10 hb n 0]
      simp
    · constructor
      · simp only [ne_eq, List.map_eq_nil_iff, List.reverse_eq_nil_iff]
        exact hne
      · rw [List.all_eq_true]
        intro c hc
        rcases List.mem_map.mp hc with ⟨d, hd, rfl⟩
        have := hdig d (List.mem_reverse.mp hd)
        simp [isGoDigit]; omega

/-- A hex field of exactly 16 digits parses back to its value: this is the
case `2 ^ 60 ≤ w < 2 ^ 64`, where `%x` happens to produce all 16 nibbles. -/
theorem parseHex16_natToHex (w : Nat) (hlo : 2 ^ 60 ≤ w) (hhi : w < 2 ^ 64) :
    parseHex16 (natToHex w) = w := by
  have hb : (2 : Nat) ≤ 16 := by omega
  have h0 : w ≠ 0 := by
    intro h; rw [h] at hlo; norm_num at hlo
  have hlen : (natDigits 16 w).length = 16 := by
    have h1 : (natDigits 16 w).length ≤ 16 := by
      apply natDigits_length_le 16 hb 16 w
      calc w < 2 ^ 64 := hhi
      _ = 16 ^ 16 := by norm_num
    have h2 : 15 < (natDigits 16 w).length := by
      apply natDigits_length_gt 16 hb 15 w
      calc (16:Nat) ^ 15 = 2 ^ 60 := by norm_num
      _ ≤ w := hlo
    omega
  have hdig := natDigits_lt_base 16 hb w
  unfold natToHex
  rw [if_neg h0]
  unfold parseHex16
  rw [if_pos ?_]
  · rw [List.foldl_map]
    have heq : ((natDigits 16 w).reverse.foldl
        (fun a d => 16 * a + hexVal (hexDigitChar d)) 0)
        = ((natDigits 16 w).reverse.foldl (fun a d => 16 * a + d) 0) := by
      apply foldl_ext_on
      intro d hd acc
      have hlt : d < 16 := hdig d (List.mem_reverse.mp hd)
      have : hexVal (hexDigitChar d) = d := by
        unfold hexDigitChar hexVal
        by_cases h : d < 10
        · rw [if_pos h, if_neg (by omega), if_neg (by omega)]; omega
        · rw [if_neg h, if_pos (by omega)]; omega
      rw [this]
    rw [heq, foldl_reverse_natDigits 16 hb w 0]
    simp
  · refine ⟨?_, ?_⟩
    · rw [List.length_map, List.length_reverse, hlen]
    · rw [List.all_eq_true]
      intro c hc
      rcases List.mem_map.mp hc with ⟨d, hd, rfl⟩
      have hlt : d < 16 := hdig d (List.mem_reverse.mp hd)
      unfold hexDigitChar
      by_cases h : d < 10
      · rw [if_pos h]; simp [isGoHexDigit]; omega
      · rw [if_neg h]; simp [isGoHexDigit]; omega

/-- `strings.Split` on a one-byte separator (the codec only splits on the
bytes 59 and 44). -/
def splitOnChar (sep : Nat) : GoStr → List GoStr
  | [] => [[]]
  | c :: cs =>
    if c = sep then [] :: splitOnChar sep cs
    else
      match splitOnChar sep cs with
      | [] => [[c]]
      | r :: rs => (c :: r) :: rs

theorem splitOnChar_cons (sep c : Nat) (cs : GoStr) :
    splitOnChar sep (c :: cs) =
      if c = sep then [] :: splitOnChar sep cs
      else
        match splitOnChar sep cs with
        | [] => [[c]]
        | r :: rs => (c :: r) :: rs := rfl

theorem splitOnChar_ne_nil (sep : Nat) (s : GoStr) : splitOnChar sep s ≠ [] := by
  match s with
  | [] => simp [splitOnChar]
  | c :: cs =>
    rw [splitOnChar_cons]
    by_cases h : c = sep
    · rw [if_pos h]; exact List.cons_ne_nil _ _
    · rw [if_neg h]
      cases splitOnChar sep cs <;> exact List.cons_ne_nil _ _

theorem splitOnChar_no_sep (sep : Nat) (s : GoStr) (h : sep ∉ s) :
    splitOnChar sep s = [s] := by
  induction s with
  | nil => rfl
  | cons c cs ih =>
    have hc : c ≠ sep := fun hh => h (hh ▸ List.mem_cons_self c cs)
    rw [splitOnChar_cons, if_neg hc, ih (fun hh => h (List.mem_cons_of_mem c hh))]

theorem splitOnChar_append_sep (sep : Nat) (body rest : GoStr) (h : sep ∉ body) :
    splitOnChar sep (body ++ sep :: rest) = body :: splitOnChar sep rest := by
  induction body with
  | nil => rw [List.nil_append, splitOnChar_cons, if_pos rfl]
  | cons c cs ih =>
    have hc : c ≠ sep := fun hh => h (hh ▸ List.mem_cons_self c cs)
    have hcs : sep ∉ cs := fun hh => h (List.mem_cons_of_mem c hh)
    rw [List.cons_append, splitOnChar_cons, if_neg hc, ih hcs]


theorem notMem_append {a : Nat} {l1 l2 : GoStr} (h1 : a ∉ l1) (h2 : a ∉ l2) :
    a ∉ l1 ++ l2 := by
  intro h
  rcases List.mem_append.mp h with h | h
  · exact h1 h
  · exact h2 h

theorem mem_natToString (n : Nat) : ∀ c ∈ natToString n, 48 ≤ c ∧ c ≤ 57 := by
  intro c hc
  unfold natToString at hc
  by_cases h0 : n = 0
  · rw [if_pos h0] at hc
    rcases List.mem_singleton.mp hc with rfl
    omega
  · rw [if_neg h0] at hc
    rcases List.mem_map.mp hc with ⟨d, hd, rfl⟩
    have := natDigits_lt_base 10 (by omega) n d (List.mem_reverse.mp hd)
    omega

theorem mem_natToHex (n : Nat) :
    ∀ c ∈ natToHex n, (48 ≤ c ∧ c ≤ 57) ∨ (97 ≤ c ∧ c ≤ 102) := by
  intro c hc
  unfold natToHex at hc
  by_cases h0 : n = 0
  · rw [if_pos h0] at hc
    rcases List.mem_singleton.mp hc with rfl
    left; omega
  · rw [if_neg h0] at hc
    rcases List.mem_map.mp hc with ⟨d, hd, rfl⟩
    have := natDigits_lt_base 16 (by omega) n d (List.mem_reverse.mp hd)
    unfold hexDigitChar
    by_cases h : d < 10
    · rw [if_pos h]; left; omega
    · rw [if_neg h]; right; omega

theorem sep_notMem_natToString (n : Nat) : 59 ∉ natToString n := by
  intro h; have := mem_natToString n 59 h; omega

theorem comma_notMem_natToString (n : Nat) : 44 ∉ natToString n := by
  intro h; have := mem_natToString n 44 h; omega

theorem sep_notMem_natToHex (n : Nat) : 59 ∉ natToHex n := by
  intro h; rcases mem_natToHex n 59 h with h | h <;> omega

theorem comma_notMem_natToHex (n : Nat) : 44 ∉ natToHex n := by
  intro h; rcases mem_natToHex n 44 h with h | h <;> omega

namespace Codec

/-- `nodeGene` of dna.go.  `kind` is a Go `int` (the `NodeKind` enum). -/
structure nodeGene where
  mutationID : Nat
  kind : Nat
deriving DecidableEq

/-- `connectionGene` of dna.go, with the float64 `weight` represented by
its IEEE-754 bit pattern (`math.Float64bits(weight)`), which is the exact
quantity the codec prints and parses. -/
structure connectionGene where
  mutationID : Nat
  «from» : Nat
  «to» : Nat
  weightBits : Nat
  enabled : Bool
deriving DecidableEq

/-- `fmt.Sprintf("n,%d,%d;", g.mutationID, g.kind)`. -/
def nodeGene.encode (g : nodeGene) : GoStr :=
  [110, 44] ++ natToString g.mutationID ++ [44] ++ natToString g.kind ++ [59]

/-- `fmt.Sprintf("c,%d,%d,%d,%x,%d;", ...)` where the `%x` field is the
bit pattern of the weight and the final field is 1 for enabled, 0 for
disabled. -/
def connectionGene.encode (g : connectionGene) : GoStr :=
  [99, 44] ++ natToString g.mutationID ++ [44] ++ natToString g.«from» ++
    [44] ++ natToString g.«to» ++ [44] ++ natToHex g.weightBits ++
    [44] ++ [if g.enabled then 49 else 48] ++ [59]

/-- `decodeNodeGene`: split off everything after the first 59, split the
rest on 44, parse fields 1 and 2.  Go indexes `components[1]` and
`components[2]` directly (panicking when absent); the model totalises the
out-of-range case with an empty field. -/
def decodeNodeGene (s : GoStr) : nodeGene :=
  let components := splitOnChar 44 ((splitOnChar 59 s).headI)
  ⟨parseNat (components.getD 1 []), parseNat (components.getD 2 [])⟩

/-- `decodeConnectionGene`: fields 1-3 parse with `Atoi`, field 4 with
`hex.DecodeString` + `binary.Read` (see `parseHex16`), field 5 is enabled
iff it contains the byte 49 (`strings.Contains(components[5], "1")`). -/
def decodeConnectionGene (s : GoStr) : connectionGene :=
  let components := splitOnChar 44 ((splitOnChar 59 s).headI)
  { mutationID := parseNat (components.getD 1 [])
    «from» := parseNat (components.getD 2 [])
    «to» := parseNat (components.getD 3 [])
    weightBits := parseHex16 (components.getD 4 [])
    enabled := (components.getD 5 []).contains 49 }

/-- `Gene` of dna.go: a mutation id together with the raw payload text. -/
structure Gene where
  mutationID : Nat
  payload : GoStr
deriving DecidableEq

/-- `Genome` of dna.go. -/
abbrev Genome := List Gene

/-- `Genome.encode`: concatenate the payloads, appending the terminator
byte 59 to any payload that does not already end with it
(`strings.HasSuffix(gene.payload, ";")`). -/
def Genome.encode (G : Genome) : GoStr :=
  G.foldl
    (fun s g =>
      s ++ (if g.payload.getLast? = some 59 then g.payload else g.payload ++ [59]))
    []

/-- The inline `extractMutID` closure of `DecodeGenome`: second
comma-field, parsed with `Atoi`. -/
def extractMutID (s : GoStr) : Nat := parseNat ((splitOnChar 44 s).getD 1 [])

/-- `DecodeGenome`: split on 59, drop the final (empty) fragment, keep
each fragment as a payload together with its extracted mutation id. -/
def DecodeGenome (s : GoStr) : Genome :=
  ((splitOnChar 59 s).dropLast).map (fun g => ⟨extractMutID g, g⟩)

/-- Tagged gene content; `decodeGenes` dispatches on the payload's first
byte exactly like this (110 = node record, 99 = connection record). -/
inductive GeneData where
  | node : nodeGene → GeneData
  | conn : connectionGene → GeneData
deriving DecidableEq

def GeneData.mutationID : GeneData → Nat
  | node n => n.mutationID
  | conn c => c.mutationID

def GeneData.encode : GeneData → GoStr
  | node n => n.encode
  | conn c => c.encode

/-- The `Gene` record built for a piece of content — `encodeGenes` builds
exactly the pair `Gene{x.mutationID, x.encode()}`. -/
def geneOf (d : GeneData) : Gene := ⟨d.mutationID, d.encode⟩

/-- Content view of one payload, as `decodeGenes` reads it: first byte 110
gives a node gene, first byte 99 a connection gene, anything else is
unrecognized (that case is fatal in `BuildBrain`). -/
def decodeGeneData (p : GoStr) : Option GeneData :=
  if p.head? = some 110 then some (.node (decodeNodeGene p))
  else if p.head? = some 99 then some (.conn (decodeConnectionGene p))
  else none

/-- The payload body of a gene record, without the trailing terminator. -/
def GeneData.body : GeneData → GoStr
  | node g => [110, 44] ++ natToString g.mutationID ++ [44] ++ natToString g.kind
  | conn g => [99, 44] ++ natToString g.mutationID ++ [44] ++ natToString g.«from» ++
      [44] ++ natToString g.«to» ++ [44] ++ natToHex g.weightBits ++
      [44] ++ [if g.enabled then 49 else 48]

theorem GeneData.encode_eq_body (d : GeneData) : d.encode = d.body ++ [59] := by
  cases d with
  | node g => simp [GeneData.encode, GeneData.body, nodeGene.encode]
  | conn g => simp [GeneData.encode, GeneData.body, connectionGene.encode]

theorem enbit_notMem (a : Nat) (b : Bool) (h48 : a ≠ 48) (h49 : a ≠ 49) :
    a ∉ [if b then 49 else 48] := by
  cases b
  · simpa using h48
  · simpa using h49

theorem sep_notMem_body (d : GeneData) : 59 ∉ d.body := by
  cases d with
  | node g =>
    refine notMem_append (notMem_append (notMem_append ?_ ?_) ?_) ?_
    · decide
    · exact sep_notMem_natToString _
    · decide
    · exact sep_notMem_natToString _
  | conn g =>
    refine notMem_append (notMem_append (notMem_append (notMem_append
      (notMem_append (notMem_append (notMem_append (notMem_append
        (notMem_append ?_ ?_) ?_) ?_) ?_) ?_) ?_) ?_) ?_) ?_
    · decide
    · exact sep_notMem_natToString _
    · decide
    · exact sep_notMem_natToString _
    · decide
    · exact sep_notMem_natToString _
    · decide
    · exact sep_notMem_natToHex _
    · decide
    · exact enbit_notMem 59 g.enabled (by decide) (by decide)

end Codec

namespace Codec

theorem splitComma_node (g : nodeGene) :
    splitOnChar 44 (GeneData.node g).body =
      [[110], natToString g.mutationID, natToString g.kind] := by
  have h : (GeneData.node g).body
      = [110] ++ 44 :: (natToString g.mutationID ++ 44 :: natToString g.kind) := by
    simp [GeneData.body]
  rw [h, splitOnChar_append_sep _ _ _ (by decide),
    splitOnChar_append_sep _ _ _ (comma_notMem_natToString _),
    splitOnChar_no_sep _ _ (comma_notMem_natToString _)]

theorem splitComma_conn (g : connectionGene) :
    splitOnChar 44 (GeneData.conn g).body =
      [[99], natToString g.mutationID, natToString g.«from», natToString g.«to»,
        natToHex g.weightBits, [if g.enabled then 49 else 48]] := by
  have h : (GeneData.conn g).body
      = [99] ++ 44 :: (natToString g.mutationID ++ 44 ::
          (natToString g.«from» ++ 44 :: (natToString g.«to» ++ 44 ::
            (natToHex g.weightBits ++ 44 :: [if g.enabled then 49 else 48])))) := by
    simp [GeneData.body]
  rw [h, splitOnChar_append_sep _ _ _ (by decide),
    splitOnChar_append_sep _ _ _ (comma_notMem_natToString _),
    splitOnChar_append_sep _ _ _ (comma_notMem_natToString _),
    splitOnChar_append_sep _ _ _ (comma_notMem_natToString _),
    splitOnChar_append_sep _ _ _ (comma_notMem_natToHex _),
    splitOnChar_no_sep _ _ (enbit_notMem 44 g.enabled (by decide) (by decide))]

theorem decodeNodeGene_body (g : nodeGene) :
    decodeNodeGene (GeneData.node g).body = g := by
  unfold decodeNodeGene
  rw [splitOnChar_no_sep 59 _ (sep_notMem_body _)]
  simp only [List.headI]
  rw [splitComma_node]
  simp only [List.getD_cons_succ, List.getD_cons_zero]
  rw [parseNat_natToString, parseNat_natToString]

/-- Which weight bit patterns survive the unpadded `%x` round trip: the
zero pattern (the field is the single byte 48, the hex decode fails, and
the weight keeps its zero value — which happens to be right), and the
patterns occupying all 16 nibbles. -/
def weightOK : GeneData → Bool
  | .node _ => true
  | .conn c => c.weightBits = 0 || (2 ^ 60 ≤ c.weightBits && c.weightBits < 2 ^ 64)

theorem decodeConnectionGene_body (g : connectionGene)
    (hw : weightOK (.conn g) = true) :
    decodeConnectionGene (GeneData.conn g).body = g := by
  unfold decodeConnectionGene
  rw [splitOnChar_no_sep 59 _ (sep_notMem_body _)]
  simp only [List.headI]
  rw [splitComma_conn]
  simp only [List.getD_cons_succ, List.getD_cons_zero]
  have hwr : parseHex16 (natToHex g.weightBits) = g.weightBits := by
    simp only [weightOK, Bool.or_eq_true, Bool.and_eq_true, decide_eq_true_eq] at hw
    rcases hw with hw | ⟨h1, h2⟩
    · rw [hw]; decide
    · exact parseHex16_natToHex _ h1 h2
  have hen : ([if g.enabled then 49 else 48].contains 49) = g.enabled := by
    cases g.enabled <;> decide
  rw [parseNat_natToString, parseNat_natToString, parseNat_natToString, hwr, hen]

theorem extractMutID_body (d : GeneData) : extractMutID d.body = d.mutationID := by
  cases d with
  | node g =>
    unfold extractMutID
    rw [splitComma_node]
    simp only [List.getD_cons_succ, List.getD_cons_zero]
    rw [parseNat_natToString]
    rfl
  | conn g =>
    unfold extractMutID
    rw [splitComma_conn]
    simp only [List.getD_cons_succ, List.getD_cons_zero]
    rw [parseNat_natToString]
    rfl

theorem body_head (d : GeneData) :
    d.body.head? = some (match d with | .node _ => 110 | .conn _ => 99) := by
  cases d with
  | node g => simp [GeneData.body]
  | conn g => simp [GeneData.body]

theorem decodeGeneData_body (d : GeneData) (hw : weightOK d = true) :
    decodeGeneData d.body = some d := by
  cases d with
  | node g =>
    unfold decodeGeneData
    rw [body_head, decodeNodeGene_body]
    simp
  | conn g =>
    unfold decodeGeneData
    rw [body_head, decodeConnectionGene_body g hw]
    simp

theorem foldl_append_acc {β : Type} (f : β → GoStr) :
    ∀ (l : List β) (a : GoStr),
      l.foldl (fun s g => s ++ f g) a = a ++ (l.map f).flatten := by
  intro l
  induction l with
  | nil => intro a; simp
  | cons x xs ih =>
    intro a
    simp only [List.foldl_cons, List.map_cons, List.flatten_cons]
    rw [ih]
    simp [List.append_assoc]

theorem encode_map_geneOf (ds : List GeneData) :
    Genome.encode (ds.map geneOf) =
      ((ds.map GeneData.body).map (fun b => b ++ [59])).flatten := by
  unfold Genome.encode
  rw [List.foldl_map, foldl_append_acc (fun d : GeneData =>
    if (geneOf d).payload.getLast? = some 59 then (geneOf d).payload
    else (geneOf d).payload ++ [59]) ds []]
  rw [List.nil_append, List.map_map]
  congr 1
  apply List.map_congr_left
  intro d _
  have hp : (geneOf d).payload = d.body ++ [59] := GeneData.encode_eq_body d
  simp only [Function.comp]
  rw [hp, List.getLast?_concat, if_pos rfl]

theorem splitOnChar_flatten_bodies :
    ∀ (bs : List GoStr), (∀ b ∈ bs, 59 ∉ b) →
      splitOnChar 59 ((bs.map (fun b => b ++ [59])).flatten) = bs ++ [[]] := by
  intro bs
  induction bs with
  | nil => intro _; rfl
  | cons b rest ih =>
    intro h
    simp only [List.map_cons, List.flatten_cons]
    have : (b ++ [59]) ++ ((rest.map (fun b => b ++ [59])).flatten)
        = b ++ 59 :: ((rest.map (fun b => b ++ [59])).flatten) := by
      simp [List.append_assoc]
    rw [this, splitOnChar_append_sep _ _ _ (h b (List.mem_cons_self b rest)),
      ih (fun x hx => h x (List.mem_cons_of_mem b hx))]
    rfl

end Codec

namespace Codec

/-- C1 (amended).  Round-trip of the textual codec.  For any sequence of
gene contents whose connection weights either are the zero bit pattern or
occupy all 16 hex nibbles (bit pattern in `[2^60, 2^64)`), decoding the
encoded genome returns the same sequence of genes field-for-field: same
mutation ids, same node/connection content, same order.  (The restriction
is forced by the unpadded `%x` weight field, see the counterexample and
C6: a nonzero bit pattern below `2^60` prints with fewer than 16 digits
and decodes to weight 0.) -/
theorem claim1_roundtrip_padded_weights (ds : List GeneData)
    (hw : ds.all weightOK = true) :
    (DecodeGenome (Genome.encode (ds.map geneOf))).map
        (fun g => (g.mutationID, decodeGeneData g.payload))
      = ds.map (fun d => (d.mutationID, some d)) := by
  rw [encode_map_geneOf]
  unfold DecodeGenome
  rw [splitOnChar_flatten_bodies (ds.map GeneData.body) ?side]
  case side =>
    intro b hb
    rcases List.mem_map.mp hb with ⟨d, _, rfl⟩
    exact sep_notMem_body d
  rw [List.dropLast_concat, List.map_map, List.map_map]
  apply List.map_congr_left
  intro d hd
  have hwd : weightOK d = true := by
    rw [List.all_eq_true] at hw
    exact hw d hd
  simp only [Function.comp]
  rw [extractMutID_body, decodeGeneData_body d hwd]

/-- C1 counterexample: a genome holding one connection gene whose weight
bit pattern is 16 (a subnormal float64, `%x` prints it as the two bytes
"10") does not survive the round trip: the decoded weight bit pattern is
0, so decode(encode(g)) is not g field-for-field. -/
theorem claim1_counterexample :
    (DecodeGenome (Genome.encode ([geneOf (.conn ⟨0, 0, 1, 16, true⟩)]))).map
        (fun g => (g.mutationID, decodeGeneData g.payload))
      ≠ [(0, some (.conn ⟨0, 0, 1, 16, true⟩))] := by decide

/-- Witness for C1: concrete two-gene genome (one node, one connection
with weight bit pattern `2^60`) on which the round-trip theorem applies. -/
theorem claim1_roundtrip_padded_weights_witness :
    ([.node ⟨0, 0⟩, .conn ⟨1, 0, 1, 2 ^ 60, true⟩] : List GeneData).all weightOK = true
    ∧ (DecodeGenome (Genome.encode
          (([.node ⟨0, 0⟩, .conn ⟨1, 0, 1, 2 ^ 60, true⟩] : List GeneData).map geneOf))).map
        (fun g => (g.mutationID, decodeGeneData g.payload))
      = [(0, some (.node ⟨0, 0⟩)), (1, some (.conn ⟨1, 0, 1, 2 ^ 60, true⟩))] :=
  ⟨by decide, by
    have h := claim1_roundtrip_padded_weights
      [.node ⟨0, 0⟩, .conn ⟨1, 0, 1, 2 ^ 60, true⟩] (by decide)
    simpa using h⟩

/-- C6: the claim says the weight field always consists of exactly 16 hex
digits and decodes back to the weight exactly.  The encoder actually
prints the bit pattern with `%x` and no zero padding, so for the
connection gene `{mutationID 7, from 0, to 1, weight bits 16, enabled}`
the weight field is the two bytes "10", and decoding the record returns
weight bits 0 instead of 16. -/
theorem claim6_weight_field_unpadded :
    ((splitOnChar 44 ((splitOnChar 59
          (connectionGene.encode ⟨7, 0, 1, 16, true⟩)).headI)).getD 4 []).length = 2
    ∧ (decodeConnectionGene (connectionGene.encode ⟨7, 0, 1, 16, true⟩)).weightBits = 0 := by
  decide

end Codec

namespace Evo

/-!
Gene-level model of dna.go / evolve.go.  The Go code keeps genomes as
text and decodes/re-encodes around every operation; by the codec
round-trip proved above this is the identity on gene content, so this
layer works directly with tagged gene content (`AGene`).  Weights and
fitnesses (float64 in Go) are modelled as exact rationals.
-/

/-- `NodeKind` constants (a Go int enum). -/
def sensorNode : Nat := 0

def outputNode : Nat := 1

def hiddenNode : Nat := 2

structure nodeGene where
  mutationID : Nat
  kind : Nat
deriving DecidableEq, Inhabited

structure connectionGene where
  mutationID : Nat
  «from» : Nat
  «to» : Nat
  weight : ℚ
  enabled : Bool
deriving DecidableEq, Inhabited

/-- One gene of a genome: the content a `Gene`'s payload denotes. -/
inductive AGene where
  | node : nodeGene → AGene
  | conn : connectionGene → AGene
deriving DecidableEq, Inhabited

def AGene.mutationID : AGene → Nat
  | node n => n.mutationID
  | conn c => c.mutationID

abbrev AGenome := List AGene

/-- `decodeGenes`: the node genes and connection genes of a genome, each
in genome order. -/
def decodeGenes (G : AGenome) : List nodeGene × List connectionGene :=
  (G.filterMap (fun g => match g with | .node n => some n | .conn _ => none),
   G.filterMap (fun g => match g with | .conn c => some c | .node _ => none))

def insertByID (g : AGene) : AGenome → AGenome
  | [] => [g]
  | h :: t => if g.mutationID ≤ h.mutationID then g :: h :: t else h :: insertByID g t

/-- `sort.Sort(byMutationID(G))` in `encodeGenes`: ascending mutation id.
Go's sort is unstable but within a genome mutation ids are unique, so any
correct sort gives the same list; the model uses insertion sort. -/
def sortByID : AGenome → AGenome
  | [] => []
  | h :: t => insertByID h (sortByID t)

/-- `encodeGenes`: collect node genes then connection genes and sort by
mutation id. -/
def encodeGenes (nodes : List nodeGene) (conns : List connectionGene) : AGenome :=
  sortByID (nodes.map .node ++ conns.map .conn)

/-- Explicit oracle for the process-wide `math/rand` source: a stream of
`rand.Float64()` results (rationals in `[0,1)`) and a stream of raw
naturals for `rand.Intn` (reduced modulo the requested bound at the call
site), with cursors. -/
structure Rng where
  fs : Nat → ℚ
  is : Nat → Nat
  fi : Nat
  ii : Nat

def Rng.nextF (r : Rng) : ℚ × Rng := (r.fs r.fi, {r with fi := r.fi + 1})

/-- `rand.Intn n`.  Go panics when `n = 0`; the model totalises that case
(`x % 0 = x`) and no theorem below relies on it. -/
def Rng.intn (r : Rng) (n : Nat) : Nat × Rng := (r.is r.ii % n, {r with ii := r.ii + 1})

/-- `uniform(lo, hi) = lo + (hi - lo) * rand.Float64()` (rand.go). -/
def uniform (lo hi : ℚ) (r : Rng) : ℚ × Rng :=
  let (f, r) := r.nextF
  (lo + (hi - lo) * f, r)

/-- `mutateConnectionWeights`: each connection gene (enabled or not)
independently has a 90% chance of `weight += uniform(-0.5, 0.5)`. -/
def mutateConnectionWeights : List connectionGene → Rng → List connectionGene × Rng
  | [], r => ([], r)
  | c :: cs, r =>
    let (p, r) := r.nextF
    let (c', r) :=
      if p < 9 / 10 then
        let (u, r) := uniform (-1 / 2) (1 / 2) r
        ({c with weight := c.weight + u}, r)
      else (c, r)
    let (cs', r) := mutateConnectionWeights cs r
    (c' :: cs', r)

/-- The try-loop of `mutateAddNode`: pick a random connection index, skip
disabled picks, up to the given number of tries.  On success returns
(old connection now disabled, `from -> len(nodes)` with weight 1, the new
hidden node, `len(nodes) -> to` with the old weight); note the two new
connections reference the node slot `len(nodes)`, the position at which
the new node will sit. -/
def mutateAddNodeLoop (nextID : Nat) (nodes : List nodeGene)
    (conns : List connectionGene) :
    Nat → Rng → Option (connectionGene × connectionGene × nodeGene × connectionGene) × Rng
  | 0, r => (none, r)
  | tries + 1, r =>
    let (i, r) := r.intn conns.length
    let conn := conns.getD i default
    if conn.enabled then
      (some ({conn with enabled := false},
        ⟨nextID + 1, conn.«from», nodes.length, 1, true⟩,
        ⟨nextID, hiddenNode⟩,
        ⟨nextID + 2, nodes.length, conn.«to», conn.weight, true⟩), r)
    else mutateAddNodeLoop nextID nodes conns tries r

def mutateAddNode (nextID : Nat) (nodes : List nodeGene)
    (conns : List connectionGene) (r : Rng) :
    Option (connectionGene × connectionGene × nodeGene × connectionGene) × Rng :=
  mutateAddNodeLoop nextID nodes conns 10 r

/-- The try-loop of `mutateAddConnection`.  Each try draws a source index
`i` over all nodes and a target index `j` over non-sensor positions.  The
inner Go loop over `conns` returns a fresh connection during its very
first iteration unless `conns[0]` is exactly the pair `(i, j)` — the
`w := uniform(-2,2); return` statement sits inside the loop body — so
only the head of the connection list is ever consulted (and an empty list
falls through to the next try). -/
def mutateAddConnectionLoop (nextID : Nat) (nodes : List nodeGene)
    (conns : List connectionGene) (inputs : Nat) :
    Nat → Rng → Option connectionGene × Rng
  | 0, r => (none, r)
  | tries + 1, r =>
    let (i, r) := r.intn nodes.length
    let (j0, r) := r.intn (nodes.length - inputs)
    let j := j0 + inputs
    match conns with
    | [] => mutateAddConnectionLoop nextID nodes conns inputs tries r
    | c :: _ =>
      if c.«from» = i ∧ c.«to» = j then
        mutateAddConnectionLoop nextID nodes conns inputs tries r
      else
        let (w, r) := uniform (-2) 2 r
        (some ⟨nextID, i, j, w, true⟩, r)

def mutateAddConnection (nextID : Nat) (nodes : List nodeGene)
    (conns : List connectionGene) (r : Rng) : Option connectionGene × Rng :=
  let inputs := (nodes.filter (fun n => n.kind = sensorNode)).length
  mutateAddConnectionLoop nextID nodes conns inputs 10 r

/-- `MutationKind` of dna.go. -/
inductive MutationKind where
  | addNodeMutation
  | addConnectionMutation
deriving DecidableEq, Inhabited

/-- `Mutation` of dna.go: one registry entry of the per-generation
innovation registry. -/
structure Mutation where
  mutationID : Nat
  kind : MutationKind
  «from» : Nat
  «to» : Nat
deriving DecidableEq, Inhabited

/-- The registry scan `for _, m := range mtg { if m.kind == k && f == m.from
&& t == m.to { ...; break } }`: first matching entry wins. -/
def lookupMutation (k : MutationKind) (f t : Nat) : List Mutation → Option Nat
  | [] => none
  | m :: ms =>
    if m.kind = k ∧ f = m.«from» ∧ t = m.«to» then some m.mutationID
    else lookupMutation k f t ms

/-- The `Mutate` block run when `mutateAddNode` fired: reuse the id triple
recorded for a split of this `(from, to)` this generation, else record the
freshly minted ids and advance `nextID` by 3; then overwrite every
connection carrying the old connection's mutation id with its disabled
copy and append the new node and the two new connections. -/
def applyAddNodeResult (nextID : Nat) (mtg : List Mutation)
    (nodes : List nodeGene) (conns : List connectionGene)
    (old a : connectionGene) (n : nodeGene) (b : connectionGene) :
    List nodeGene × List connectionGene × Nat × List Mutation :=
  let (n, a, b, nextID, mtg) :
      nodeGene × connectionGene × connectionGene × Nat × List Mutation :=
    match lookupMutation .addNodeMutation old.«from» old.«to» mtg with
    | some id0 =>
      ({n with mutationID := id0}, {a with mutationID := id0 + 1},
        {b with mutationID := id0 + 2}, nextID, mtg)
    | none =>
      (n, a, b, nextID + 3,
        mtg ++ [⟨n.mutationID, .addNodeMutation, old.«from», old.«to»⟩])
  let conns := conns.map (fun c => if c.mutationID = old.mutationID then old else c)
  (nodes ++ [n], conns ++ [a, b], nextID, mtg)

/-- The `Mutate` block run when `mutateAddConnection` fired: reuse the id
recorded for this `(from, to)` this generation, else record the minted id
and advance `nextID`; append the new connection. -/
def applyAddConnResult (nextID : Nat) (mtg : List Mutation)
    (conns : List connectionGene) (newConn : connectionGene) :
    List connectionGene × Nat × List Mutation :=
  match lookupMutation .addConnectionMutation newConn.«from» newConn.«to» mtg with
  | some id0 => (conns ++ [{newConn with mutationID := id0}], nextID, mtg)
  | none =>
    (conns ++ [newConn], nextID + 1,
      mtg ++ [⟨newConn.mutationID, .addConnectionMutation, newConn.«from», newConn.«to»⟩])

/-- `Genome.Mutate`: the three operators with their probability gates, in
program order, followed by re-encoding. -/
def Mutate (G : AGenome) (nextID : Nat) (mtg : List Mutation) (r : Rng) :
    AGenome × Nat × List Mutation × Rng :=
  let (nodes, conns) := decodeGenes G
  let (p1, r) := r.nextF
  let (conns, r) := if p1 < 4 / 5 then mutateConnectionWeights conns r else (conns, r)
  let (p2, r) := r.nextF
  let (nodes, conns, nextID, mtg, r) :=
    if p2 < 3 / 100 then
      match mutateAddNode nextID nodes conns r with
      | (some (old, a, n, b), r) =>
        let (nodes, conns, nextID, mtg) := applyAddNodeResult nextID mtg nodes conns old a n b
        (nodes, conns, nextID, mtg, r)
      | (none, r) => (nodes, conns, nextID, mtg, r)
    else (nodes, conns, nextID, mtg, r)
  let (p3, r) := r.nextF
  let (conns, nextID, mtg, r) :=
    if p3 < 1 / 20 then
      match mutateAddConnection nextID nodes conns r with
      | (some c, r) =>
        let (conns, nextID, mtg) := applyAddConnResult nextID mtg conns c
        (conns, nextID, mtg, r)
      | (none, r) => (conns, nextID, mtg, r)
    else (conns, nextID, mtg, r)
  (encodeGenes nodes conns, nextID, mtg, r)

end Evo

namespace Evo

/-- The genetic content of a `Brain` as the scheduler sees it: its genome
(`Brain.Genes`, kept as text in Go and decoded on use — the codec
round-trip makes that the identity on content) and its cached fitness.
The derived network arrays are rebuilt on evaluation and play no role in
the scheduler. -/
structure Member where
  genome : AGenome
  fitness : ℚ
deriving DecidableEq, Inhabited

/-- `BuildBrain` as the scheduler uses it: a fresh member with fitness 0. -/
def buildMember (g : AGenome) : Member := ⟨g, 0⟩

/-- `Species` of evolve.go.  Go's `champion` is a `*Brain`; it is modelled
by value. -/
structure Species where
  members : List Member
  champion : Option Member
  sharedFitness : ℚ
  timeWithoutImprovement : Nat
deriving DecidableEq, Inhabited

/-- The position-by-position walk of `genomeMismatch`, accumulating
(matched, disjoint, excess, weightDiff).  A position inside both genomes
matches when the two genes carry the same mutation id (adding the weight
difference when both are connection genes) and is disjoint otherwise; a
position beyond the shorter genome is excess and adds the absolute weight
of the longer genome's gene when it is a connection gene. -/
def mismatchLoop : AGenome → AGenome → Nat × Nat × Nat × ℚ
  | [], [] => (0, 0, 0, 0)
  | [], y :: ys =>
    let (m, d, e, w) := mismatchLoop [] ys
    (m, d, e + 1, w + (match y with | .conn c => |c.weight| | .node _ => 0))
  | x :: xs, [] =>
    let (m, d, e, w) := mismatchLoop xs []
    (m, d, e + 1, w + (match x with | .conn c => |c.weight| | .node _ => 0))
  | x :: xs, y :: ys =>
    let (m, d, e, w) := mismatchLoop xs ys
    if x.mutationID = y.mutationID then
      (m + 1, d, e,
        w + (match x, y with
          | .conn cx, .conn cy => |cx.weight - cy.weight|
          | _, _ => 0))
    else (m, d + 1, e, w)

/-- `genomeMismatch`: `(N, matched, disjoint, excess, weightDiff)` with
the small-genome normalisation `N = 1` when `max(len a, len b) < 20`.
Go returns float64 counts; they are whole numbers and the model returns
them as such. -/
def genomeMismatch (a b : AGenome) : ℚ × Nat × Nat × Nat × ℚ :=
  let (m, d, e, w) := mismatchLoop a b
  let N : ℚ := (max a.length b.length : Nat)
  ((if N < 20 then 1 else N), m, d, e, w)

/-- `CompatibilityDistance(a,b) = disjoint/N + excess/N + 0.4*weightDiff`. -/
def CompatibilityDistance (a b : AGenome) : ℚ :=
  let (N, _, d, e, w) := genomeMismatch a b
  (d : ℚ) / N + (e : ℚ) / N + 2 / 5 * w

/-- `Sharing`: 1 when the compatibility distance is below 3, else 0. -/
def Sharing (a b : AGenome) : ℚ :=
  if CompatibilityDistance a b < 3 then 1 else 0

/-- The crossover assignment loop: for each position of the two parent
gene arrays (same length), a fair coin decides which offspring receives
which parent's gene. -/
def crossoverLoop : List AGene → List AGene → Rng → List AGene × List AGene × Rng
  | mg :: ms, fg :: fs, r =>
    let (p, r) := r.nextF
    let (as_, bs, r) := crossoverLoop ms fs r
    if p < 1 / 2 then (mg :: as_, fg :: bs, r) else (fg :: as_, mg :: bs, r)
  | _, _, r => ([], [], r)

/-- The per-species breeding loop of `Optimize`: until the member count
reaches the species' offspring quota, 25% asexual reproduction (mutate a
random parent) else sexual reproduction (positional crossover of two
random parents, the disjoint/excess tail taken from the strictly fitter
and strictly longer parent, both offspring mutated).  The loop always
adds at least one member per iteration, so `fuel` larger than the quota
makes the model exhaust-free; `numParents` is the member count captured
before the loop, as in Go. -/
def breedLoop (cap : Int) (numParents : Nat) :
    Nat → List Member → Nat → List Mutation → Rng →
      List Member × Nat × List Mutation × Rng
  | 0, members, nextID, mtg, r => (members, nextID, mtg, r)
  | fuel + 1, members, nextID, mtg, r =>
    if (members.length : Int) ≥ cap then (members, nextID, mtg, r)
    else
      let (p, r) := r.nextF
      if p < 1 / 4 then
        let (i, r) := r.intn numParents
        let parent := (members.getD i default).genome
        let (offspring, nextID, mtg, r) := Mutate parent nextID mtg r
        breedLoop cap numParents fuel (members ++ [buildMember offspring]) nextID mtg r
      else
        let (i1, r) := r.intn numParents
        let (i2, r) := r.intn numParents
        let mb := members.getD i1 default
        let fb := members.getD i2 default
        let mg := mb.genome
        let fg := fb.genome
        let (m, _, _, _) := mismatchLoop mg fg
        let mGenes := mg.take m
        let fGenes := fg.take m
        let otherGenes :=
          if mb.fitness > fb.fitness ∧ mg.length > fg.length then mg.drop m
          else if fb.fitness > mb.fitness ∧ fg.length > mg.length then fg.drop m
          else []
        let mGenes := mGenes ++ otherGenes
        let fGenes := fGenes ++ otherGenes
        let (aGenes, bGenes, r) := crossoverLoop mGenes fGenes r
        let (aG, nextID, mtg, r) := Mutate aGenes nextID mtg r
        let (bG, nextID, mtg, r) := Mutate bGenes nextID mtg r
        breedLoop cap numParents fuel
          (members ++ [buildMember aG, buildMember bG]) nextID mtg r

/-- The "Breed species populations" block of `Optimize`: one pass over the
species with their quotas.  The innovation registry `mtg` is initialised
to the empty list anew for every species — inside the per-species loop —
so it is scoped to a single species, not to the whole generation. -/
def breedStep : List Species → List Int → Nat → Rng → List Species × Nat × Rng
  | [], _, nextID, r => ([], nextID, r)
  | s :: rest, caps, nextID, r =>
    let cap := caps.headD 0
    let mtg : List Mutation := []
    let numParents := s.members.length
    let (members, nextID2, _, r) :=
      breedLoop cap numParents (cap.toNat + 1) s.members nextID mtg r
    let (rest', nextID3, r2) := breedStep rest caps.tail nextID2 r
    ({s with members := members} :: rest', nextID3, r2)

/-- Mutation ids of the hidden node genes of a genome. -/
def hiddenIDs (G : AGenome) : List Nat :=
  G.filterMap (fun g =>
    match g with
    | .node n => if n.kind = hiddenNode then some n.mutationID else none
    | .conn _ => none)

/-- An all-zeros oracle. -/
def rng0 : Rng := ⟨fun _ => 0, fun _ => 0, 0, 0⟩

/-- The minimal 1-input 1-output genome both C3 species start from. -/
def G0 : AGenome := [.node ⟨0, sensorNode⟩, .node ⟨1, outputNode⟩, .conn ⟨2, 0, 1, 1, true⟩]

/-- Oracle driving the C3 counterexample: in each species' single
breeding iteration the draws select asexual reproduction (1/10 < 1/4),
skip weight perturbation (9/10 ≥ 4/5), fire the split-connection operator
(1/100 < 3/100) and skip add-connection (9/10 ≥ 1/20); all `Intn` draws
are 0. -/
def c3rng : Rng :=
  ⟨fun k => [1/10, 9/10, 1/100, 9/10, 1/10, 9/10, 1/100, 9/10].getD k 0,
    fun _ => 0, 0, 0⟩

end Evo

namespace Evo

theorem connectionGene.enable_disable (c : connectionGene) (h : c.enabled = true) :
    ({ c with enabled := true } : connectionGene) = c := by
  obtain ⟨a, b, c', d, e⟩ := c
  have h' : e = true := h
  subst h'
  rfl

theorem mutateAddNodeLoop_some (nextID : Nat) (nodes : List nodeGene)
    (conns : List connectionGene) :
    ∀ (tries : Nat) (r r' : Rng) (old a : connectionGene) (n : nodeGene)
      (b : connectionGene),
      mutateAddNodeLoop nextID nodes conns tries r = (some (old, a, n, b), r') →
      (∃ l1 l2, conns = l1 ++ ({ old with enabled := true } : connectionGene) :: l2) ∧
      old.enabled = false ∧
      a = ⟨nextID + 1, old.«from», nodes.length, 1, true⟩ ∧
      n = ⟨nextID, hiddenNode⟩ ∧
      b = ⟨nextID + 2, nodes.length, old.«to», old.weight, true⟩ := by
  intro tries
  induction tries with
  | zero =>
    intro r r' old a n b h
    exact absurd h (by simp [mutateAddNodeLoop])
  | succ t ih =>
    intro r r' old a n b h
    rw [mutateAddNodeLoop] at h
    simp only [Rng.intn] at h
    by_cases hen : (conns.getD (r.is r.ii % conns.length) default).enabled = true
    · rw [if_pos hen, Prod.mk.injEq, Option.some.injEq, Prod.mk.injEq,
        Prod.mk.injEq, Prod.mk.injEq] at h
      obtain ⟨⟨ho, ha, hn, hb⟩, hr⟩ := h
      set i := r.is r.ii % conns.length with hi
      have hlen : 0 < conns.length := by
        by_contra hc
        have hnil : conns = [] := List.eq_nil_of_length_eq_zero (by omega)
        rw [hnil] at hen
        simp [default] at hen
      have hilt : i < conns.length := Nat.mod_lt _ hlen
      have hgd : conns.getD i default = conns[i] := List.getD_eq_getElem conns default hilt
      have hold : old = { conns[i] with enabled := false } := by
        rw [← ho, hgd]
      have holdT : ({ old with enabled := true } : connectionGene) = conns[i] := by
        rw [hold]
        exact connectionGene.enable_disable conns[i] (by rw [← hgd]; exact hen)
      refine ⟨⟨conns.take i, conns.drop (i + 1), ?_⟩, ?_, ?_, ?_, ?_⟩
      · rw [holdT, ← List.drop_eq_getElem_cons hilt, List.take_append_drop]
      · rw [hold]
      · rw [← ha, hold]; simp [hgd, List.getElem?_eq_getElem hilt]
      · rw [← hn]
      · rw [← hb, hold]; simp [hgd, List.getElem?_eq_getElem hilt]
    · rw [if_neg hen] at h
      exact ih _ _ old a n b h

end Evo

namespace Evo

theorem map_replace_of_uniq (old : connectionGene) (l1 l2 : List connectionGene)
    (h1 : ∀ c ∈ l1, c.mutationID ≠ old.mutationID)
    (h2 : ∀ c ∈ l2, c.mutationID ≠ old.mutationID) :
    ((l1 ++ ({ old with enabled := true } : connectionGene) :: l2).map
        (fun c => if c.mutationID = old.mutationID then old else c))
      = l1 ++ old :: l2 := by
  rw [List.map_append, List.map_cons]
  have e1 : l1.map (fun c => if c.mutationID = old.mutationID then old else c) = l1 := by
    have := List.map_congr_left (l := l1)
      (f := fun c => if c.mutationID = old.mutationID then old else c) (g := id)
      (fun c hc => by
        show (if c.mutationID = old.mutationID then old else c) = c
        rw [if_neg (h1 c hc)])
    rw [this, List.map_id]
  have e2 : l2.map (fun c => if c.mutationID = old.mutationID then old else c) = l2 := by
    have := List.map_congr_left (l := l2)
      (f := fun c => if c.mutationID = old.mutationID then old else c) (g := id)
      (fun c hc => by
        show (if c.mutationID = old.mutationID then old else c) = c
        rw [if_neg (h2 c hc)])
    rw [this, List.map_id]
  have e3 : (if ({ old with enabled := true } : connectionGene).mutationID
        = old.mutationID then old
      else ({ old with enabled := true } : connectionGene)) = old := if_pos rfl
  rw [e1, e2, e3]

/-- C2: whenever the split-connection operator fires on a genome with
pairwise-distinct connection ids, its application yields exactly one
newly disabled connection (the picked enabled connection), one new hidden
node, and two new enabled connections — the first from the old
connection's source to the new node's slot with weight 1.0, the second
from that slot to the old connection's destination with the original
weight — so the node count grows by 1, the connection count by 2, and the
disabled-connection count by exactly 1. -/
theorem claim2_split_connection
    (nextID : Nat) (nodes : List nodeGene) (conns : List connectionGene)
    (mtg : List Mutation) (r r' : Rng)
    (old a : connectionGene) (n : nodeGene) (b : connectionGene)
    (huniq : conns.Pairwise (fun c c' => c.mutationID ≠ c'.mutationID))
    (hfire : mutateAddNode nextID nodes conns r = (some (old, a, n, b), r')) :
    ((applyAddNodeResult nextID mtg nodes conns old a n b).1.length = nodes.length + 1)
    ∧ ((applyAddNodeResult nextID mtg nodes conns old a n b).2.1.length = conns.length + 2)
    ∧ (∃ nid, (applyAddNodeResult nextID mtg nodes conns old a n b).1
        = nodes ++ [⟨nid, hiddenNode⟩])
    ∧ (∃ ida idb, (applyAddNodeResult nextID mtg nodes conns old a n b).2.1
        = (conns.map fun c => if c.mutationID = old.mutationID then old else c)
          ++ [⟨ida, old.«from», nodes.length, 1, true⟩,
              ⟨idb, nodes.length, old.«to», old.weight, true⟩])
    ∧ (∃ l1 l2, conns = l1 ++ ({ old with enabled := true } : connectionGene) :: l2)
    ∧ old.enabled = false
    ∧ (((applyAddNodeResult nextID mtg nodes conns old a n b).2.1.filter
          (fun c => !c.enabled)).length
        = (conns.filter (fun c => !c.enabled)).length + 1) := by
  obtain ⟨⟨l1, l2, hdecomp⟩, hdis, ha, hn, hb⟩ :=
    mutateAddNodeLoop_some nextID nodes conns 10 r r' old a n b hfire
  have hcount : ∀ a' b' : connectionGene, a'.enabled = true → b'.enabled = true →
      ((((conns.map fun c => if c.mutationID = old.mutationID then old else c)
          ++ [a', b']).filter (fun c => !c.enabled)).length
        = (conns.filter (fun c => !c.enabled)).length + 1) := by
    intro a' b' ha' hb'
    have hpw := huniq
    rw [hdecomp, List.pairwise_append] at hpw
    obtain ⟨hp1, hp2, hcross⟩ := hpw
    rw [List.pairwise_cons] at hp2
    obtain ⟨hcTl2, _⟩ := hp2
    have h1 : ∀ c ∈ l1, c.mutationID ≠ old.mutationID := fun c hc he =>
      hcross c hc ({ old with enabled := true } : connectionGene)
        (List.mem_cons_self _ _) he
    have h2 : ∀ c ∈ l2, c.mutationID ≠ old.mutationID := fun c hc he =>
      hcTl2 c hc he.symm
    rw [hdecomp, map_replace_of_uniq old l1 l2 h1 h2]
    simp only [List.filter_append, List.filter_cons, List.length_append, hdis, ha', hb']
    simp
    omega
  subst ha; subst hn; subst hb
  refine ⟨?_, ?_, ?_, ?_, ⟨l1, l2, hdecomp⟩, hdis, ?_⟩
  · cases hl : lookupMutation .addNodeMutation old.«from» old.«to» mtg <;>
      simp [applyAddNodeResult, hl]
  · cases hl : lookupMutation .addNodeMutation old.«from» old.«to» mtg <;>
      simp [applyAddNodeResult, hl]
  · cases hl : lookupMutation .addNodeMutation old.«from» old.«to» mtg with
    | some id0 => exact ⟨id0, by simp [applyAddNodeResult, hl]⟩
    | none => exact ⟨nextID, by simp [applyAddNodeResult, hl]⟩
  · cases hl : lookupMutation .addNodeMutation old.«from» old.«to» mtg with
    | some id0 => exact ⟨id0 + 1, id0 + 2, by simp [applyAddNodeResult, hl]⟩
    | none => exact ⟨nextID + 1, nextID + 2, by simp [applyAddNodeResult, hl]⟩
  · cases hl : lookupMutation .addNodeMutation old.«from» old.«to» mtg with
    | some id0 =>
      simp only [applyAddNodeResult, hl]
      exact hcount _ _ rfl rfl
    | none =>
      simp only [applyAddNodeResult, hl]
      exact hcount _ _ rfl rfl

end Evo

namespace Evo

/-- Witness for C2 at a concrete genome: sensor 0, output 1, one enabled
connection (id 2, 0 -> 1, weight 5); the all-zeros oracle picks it, the
operator fires, and the claim's conclusions hold. -/
theorem claim2_split_connection_witness :
    ((applyAddNodeResult 3 [] [⟨0, 0⟩, ⟨1, 1⟩] [⟨2, 0, 1, 5, true⟩]
        ⟨2, 0, 1, 5, false⟩ ⟨4, 0, 2, 1, true⟩ ⟨3, 2⟩ ⟨5, 2, 1, 5, true⟩).1.length = 3)
    ∧ ((applyAddNodeResult 3 [] [⟨0, 0⟩, ⟨1, 1⟩] [⟨2, 0, 1, 5, true⟩]
        ⟨2, 0, 1, 5, false⟩ ⟨4, 0, 2, 1, true⟩ ⟨3, 2⟩ ⟨5, 2, 1, 5, true⟩).2.1.length = 3)
    ∧ (((applyAddNodeResult 3 [] [⟨0, 0⟩, ⟨1, 1⟩] [⟨2, 0, 1, 5, true⟩]
        ⟨2, 0, 1, 5, false⟩ ⟨4, 0, 2, 1, true⟩ ⟨3, 2⟩ ⟨5, 2, 1, 5, true⟩).2.1.filter
          (fun c => !c.enabled)).length
        = (([⟨2, 0, 1, 5, true⟩] : List connectionGene).filter
            (fun c => !c.enabled)).length + 1) := by
  have h := claim2_split_connection 3 [⟨0, 0⟩, ⟨1, 1⟩] [⟨2, 0, 1, 5, true⟩] [] rng0 _
    ⟨2, 0, 1, 5, false⟩ ⟨4, 0, 2, 1, true⟩ ⟨3, 2⟩ ⟨5, 2, 1, 5, true⟩
    (by simp) rfl
  exact ⟨h.1, h.2.1, h.2.2.2.2.2.2⟩

theorem lookupMutation_append_none (k : MutationKind) (f t : Nat)
    (mtg : List Mutation) (id0 : Nat)
    (h : lookupMutation k f t mtg = none) :
    lookupMutation k f t (mtg ++ [⟨id0, k, f, t⟩]) = some id0 := by
  induction mtg with
  | nil => simp [lookupMutation]
  | cons m ms ih =>
    rw [List.cons_append]
    rw [lookupMutation] at h ⊢
    by_cases hc : m.kind = k ∧ f = m.«from» ∧ t = m.«to»
    · rw [if_pos hc] at h; exact absurd h (by simp)
    · rw [if_neg hc] at h ⊢
      exact ih h

/-- C3 (amended).  Mutation calls share the innovation registry only
within the breeding of one species (the registry is reset at the start of
each species' breeding loop, see `breedStep`).  Within one shared
registry threading, convergence does hold for both structural operators.
Split: when a split of `(f, t)` first fires with no registry entry for
`(f, t)`, minting ids `n1.mutationID, +1, +2` and recording the entry,
any later split of `(f, t)` against the returned registry reuses exactly
those three ids and leaves the id counter and the registry unchanged.
Add-connection: when an added connection `(f, t)` first fires with no
registry entry for `(f, t)`, recording its id, any later add-connection
of `(f, t)` against the returned registry reuses exactly that id and
leaves the id counter and the registry unchanged. -/
theorem claim3_registry_convergence :
    (∀ (f t nextID nextID2 : Nat) (mtg : List Mutation)
        (nodes1 nodes2 : List nodeGene) (conns1 conns2 : List connectionGene)
        (old1 a1 : connectionGene) (n1 : nodeGene) (b1 : connectionGene)
        (old2 a2 : connectionGene) (n2 : nodeGene) (b2 : connectionGene),
      lookupMutation .addNodeMutation f t mtg = none →
      old1.«from» = f → old1.«to» = t →
      old2.«from» = f → old2.«to» = t →
      n2.kind = hiddenNode →
      a1.mutationID = n1.mutationID + 1 →
      b1.mutationID = n1.mutationID + 2 →
      ((applyAddNodeResult nextID mtg nodes1 conns1 old1 a1 n1 b1).1 = nodes1 ++ [n1])
      ∧ (∃ repl1, (applyAddNodeResult nextID mtg nodes1 conns1 old1 a1 n1 b1).2.1
          = repl1 ++ [a1, b1])
      ∧ ((applyAddNodeResult nextID2
            ((applyAddNodeResult nextID mtg nodes1 conns1 old1 a1 n1 b1).2.2.2)
            nodes2 conns2 old2 a2 n2 b2).1
          = nodes2 ++ [⟨n1.mutationID, hiddenNode⟩])
      ∧ (∃ repl2, (applyAddNodeResult nextID2
            ((applyAddNodeResult nextID mtg nodes1 conns1 old1 a1 n1 b1).2.2.2)
            nodes2 conns2 old2 a2 n2 b2).2.1
          = repl2 ++ [{ a2 with mutationID := n1.mutationID + 1 },
                      { b2 with mutationID := n1.mutationID + 2 }])
      ∧ ((applyAddNodeResult nextID2
            ((applyAddNodeResult nextID mtg nodes1 conns1 old1 a1 n1 b1).2.2.2)
            nodes2 conns2 old2 a2 n2 b2).2.2.1 = nextID2)
      ∧ ((applyAddNodeResult nextID2
            ((applyAddNodeResult nextID mtg nodes1 conns1 old1 a1 n1 b1).2.2.2)
            nodes2 conns2 old2 a2 n2 b2).2.2.2
          = (applyAddNodeResult nextID mtg nodes1 conns1 old1 a1 n1 b1).2.2.2))
    ∧ (∀ (f t nextID nextID2 : Nat) (mtg : List Mutation)
        (conns1 conns2 : List connectionGene) (newConn1 newConn2 : connectionGene),
      lookupMutation .addConnectionMutation f t mtg = none →
      newConn1.«from» = f → newConn1.«to» = t →
      newConn2.«from» = f → newConn2.«to» = t →
      ((applyAddConnResult nextID mtg conns1 newConn1).1 = conns1 ++ [newConn1])
      ∧ ((applyAddConnResult nextID2
            ((applyAddConnResult nextID mtg conns1 newConn1).2.2)
            conns2 newConn2).1
          = conns2 ++ [{ newConn2 with mutationID := newConn1.mutationID }])
      ∧ ((applyAddConnResult nextID2
            ((applyAddConnResult nextID mtg conns1 newConn1).2.2)
            conns2 newConn2).2.1 = nextID2)
      ∧ ((applyAddConnResult nextID2
            ((applyAddConnResult nextID mtg conns1 newConn1).2.2)
            conns2 newConn2).2.2
          = (applyAddConnResult nextID mtg conns1 newConn1).2.2)) := by
  constructor
  · intro f t nextID nextID2 mtg nodes1 nodes2 conns1 conns2
      old1 a1 n1 b1 old2 a2 n2 b2 hnone h1f h1t h2f h2t hkind _ha1 _hb1
    have hl1 : lookupMutation .addNodeMutation old1.«from» old1.«to» mtg = none := by
      rw [h1f, h1t]; exact hnone
    have hmtg1 : (applyAddNodeResult nextID mtg nodes1 conns1 old1 a1 n1 b1).2.2.2
        = mtg ++ [⟨n1.mutationID, .addNodeMutation, old1.«from», old1.«to»⟩] := by
      simp [applyAddNodeResult, hl1]
    have hl2 : lookupMutation .addNodeMutation old2.«from» old2.«to»
        ((applyAddNodeResult nextID mtg nodes1 conns1 old1 a1 n1 b1).2.2.2)
        = some n1.mutationID := by
      rw [hmtg1, h2f, h2t, h1f, h1t]
      exact lookupMutation_append_none _ _ _ mtg n1.mutationID hnone
    refine ⟨?_, ?_, ?_, ?_, ?_, ?_⟩
    · simp [applyAddNodeResult, hl1]
    · refine ⟨conns1.map (fun c => if c.mutationID = old1.mutationID then old1 else c), ?_⟩
      simp [applyAddNodeResult, hl1]
    · rw [applyAddNodeResult, hl2]
      simp only
      congr 2
      obtain ⟨ni, nk⟩ := n2
      have : nk = hiddenNode := hkind
      subst this
      rfl
    · refine ⟨conns2.map (fun c => if c.mutationID = old2.mutationID then old2 else c), ?_⟩
      rw [applyAddNodeResult, hl2]
    · rw [applyAddNodeResult, hl2]
    · rw [applyAddNodeResult, hl2]
  · intro f t nextID nextID2 mtg conns1 conns2 newConn1 newConn2
      hnone h1f h1t h2f h2t
    have hl1 : lookupMutation .addConnectionMutation
        newConn1.«from» newConn1.«to» mtg = none := by
      rw [h1f, h1t]; exact hnone
    have hmtg1 : (applyAddConnResult nextID mtg conns1 newConn1).2.2
        = mtg ++ [⟨newConn1.mutationID, .addConnectionMutation,
            newConn1.«from», newConn1.«to»⟩] := by
      simp [applyAddConnResult, hl1]
    have hl2 : lookupMutation .addConnectionMutation newConn2.«from» newConn2.«to»
        ((applyAddConnResult nextID mtg conns1 newConn1).2.2)
        = some newConn1.mutationID := by
      rw [hmtg1, h2f, h2t, h1f, h1t]
      exact lookupMutation_append_none _ _ _ mtg newConn1.mutationID hnone
    refine ⟨?_, ?_, ?_, ?_⟩
    · simp [applyAddConnResult, hl1]
    · rw [applyAddConnResult, hl2]
    · rw [applyAddConnResult, hl2]
    · rw [applyAddConnResult, hl2]

end Evo

namespace Evo

/-- Witness for the amended C3, both operators at concrete inputs.
Split (the ids the C3 counterexample produces): a first split of
connection (0,1) minted ids 3,4,5; a second split of (0,1) against the
returned registry reuses id 3 for its new node and leaves the id counter
at 6.  Add-connection: a first added connection (0,1) recorded id 9; a
second added (0,1) connection against the returned registry reuses id 9
and leaves the id counter at 12. -/
theorem claim3_registry_convergence_witness :
    ((applyAddNodeResult 6
        ((applyAddNodeResult 3 [] [⟨0, 0⟩, ⟨1, 1⟩] [⟨2, 0, 1, 1, true⟩]
            ⟨2, 0, 1, 1, false⟩ ⟨4, 0, 2, 1, true⟩ ⟨3, 2⟩ ⟨5, 2, 1, 1, true⟩).2.2.2)
        [⟨0, 0⟩, ⟨1, 1⟩] [⟨2, 0, 1, 1, true⟩]
        ⟨2, 0, 1, 1, false⟩ ⟨7, 0, 2, 1, true⟩ ⟨6, 2⟩ ⟨8, 2, 1, 1, true⟩).1
      = [⟨0, 0⟩, ⟨1, 1⟩] ++ [⟨3, hiddenNode⟩])
    ∧ ((applyAddNodeResult 6
        ((applyAddNodeResult 3 [] [⟨0, 0⟩, ⟨1, 1⟩] [⟨2, 0, 1, 1, true⟩]
            ⟨2, 0, 1, 1, false⟩ ⟨4, 0, 2, 1, true⟩ ⟨3, 2⟩ ⟨5, 2, 1, 1, true⟩).2.2.2)
        [⟨0, 0⟩, ⟨1, 1⟩] [⟨2, 0, 1, 1, true⟩]
        ⟨2, 0, 1, 1, false⟩ ⟨7, 0, 2, 1, true⟩ ⟨6, 2⟩ ⟨8, 2, 1, 1, true⟩).2.2.1 = 6)
    ∧ ((applyAddConnResult 12
        ((applyAddConnResult 9 [] [] ⟨9, 0, 1, 1, true⟩).2.2)
        [] ⟨12, 0, 1, 2, true⟩).1 = [⟨9, 0, 1, 2, true⟩])
    ∧ ((applyAddConnResult 12
        ((applyAddConnResult 9 [] [] ⟨9, 0, 1, 1, true⟩).2.2)
        [] ⟨12, 0, 1, 2, true⟩).2.1 = 12) := by
  have h1 := claim3_registry_convergence.1 0 1 3 6 []
    [⟨0, 0⟩, ⟨1, 1⟩] [⟨0, 0⟩, ⟨1, 1⟩] [⟨2, 0, 1, 1, true⟩] [⟨2, 0, 1, 1, true⟩]
    ⟨2, 0, 1, 1, false⟩ ⟨4, 0, 2, 1, true⟩ ⟨3, 2⟩ ⟨5, 2, 1, 1, true⟩
    ⟨2, 0, 1, 1, false⟩ ⟨7, 0, 2, 1, true⟩ ⟨6, 2⟩ ⟨8, 2, 1, 1, true⟩
    rfl rfl rfl rfl rfl rfl rfl rfl
  have h2 := claim3_registry_convergence.2 0 1 9 12 [] [] []
    ⟨9, 0, 1, 1, true⟩ ⟨12, 0, 1, 2, true⟩ rfl rfl rfl rfl rfl
  exact ⟨h1.2.2.1, h1.2.2.2.2.1, h2.2.1, h2.2.2.1⟩

/-- C3 counterexample: the original claim says the registry is shared by
the whole population within a generation, so the same structural change
in two different species would get identical ids.  Concretely: a
population of two species, each one member with the same minimal genome
`G0` and quota 2; the oracle makes each species breed exactly one
asexual offspring whose only firing operator is the split of the single
connection (from 0 to 1).  Both offspring perform the same structural
mutation, but because `breedStep` resets `mtg` per species, the first
offspring's new hidden node gets id 3 and the second's gets id 6 — not
identical ids.  (Ids 4,5 and 7,8 go to the respective new connections.) -/
theorem claim3_counterexample :
    (breedStep [⟨[⟨G0, 1⟩], none, 0, 0⟩, ⟨[⟨G0, 1⟩], none, 0, 0⟩] [2, 2] 3 c3rng).1.map
        (fun s => s.members.map (fun m => m.genome))
      = [[G0, [.node ⟨0, sensorNode⟩, .node ⟨1, outputNode⟩,
              .conn ⟨2, 0, 1, 1, false⟩, .node ⟨3, hiddenNode⟩,
              .conn ⟨4, 0, 2, 1, true⟩, .conn ⟨5, 2, 1, 1, true⟩]],
         [G0, [.node ⟨0, sensorNode⟩, .node ⟨1, outputNode⟩,
              .conn ⟨2, 0, 1, 1, false⟩, .node ⟨6, hiddenNode⟩,
              .conn ⟨7, 0, 2, 1, true⟩, .conn ⟨8, 2, 1, 1, true⟩]]]
    ∧ hiddenIDs (((breedStep [⟨[⟨G0, 1⟩], none, 0, 0⟩, ⟨[⟨G0, 1⟩], none, 0, 0⟩]
          [2, 2] 3 c3rng).1.getD 0 default).members.getD 1 default).genome
      ≠ hiddenIDs (((breedStep [⟨[⟨G0, 1⟩], none, 0, 0⟩, ⟨[⟨G0, 1⟩], none, 0, 0⟩]
          [2, 2] 3 c3rng).1.getD 1 default).members.getD 1 default).genome :=
  of_decide_eq_true (by with_unfolding_all rfl)

/-- C5: the claim says a new connection's endpoint pair is never already
present among the genome's connections.  With nodes {sensor 0, output 1}
and connections [(1,1), (0,1)], an all-zeros oracle draws the pair
i = 0, j = 1; the duplicate scan only ever consults the head connection
(1,1) — the `w := uniform(-2,2); return` sits inside the scan loop — so
the operator returns a fresh (0,1) connection although (0,1) already
exists at index 1. -/
theorem claim5_duplicate_pair :
    ((mutateAddConnection 4 [⟨0, sensorNode⟩, ⟨1, outputNode⟩]
        [⟨2, 1, 1, 0, true⟩, ⟨3, 0, 1, 1, true⟩] rng0).1
      = some ⟨4, 0, 1, -2, true⟩)
    ∧ (∃ c ∈ ([⟨2, 1, 1, 0, true⟩, ⟨3, 0, 1, 1, true⟩] : List connectionGene),
        c.«from» = 0 ∧ c.«to» = 1) :=
  of_decide_eq_true (by with_unfolding_all rfl)

end Evo

namespace Evo

/-- `Node` of brain.go: kind plus transient accumulator/output state. -/
structure Node where
  kind : Nat
  accumulator : ℝ
  output : ℝ

instance : Inhabited Node := ⟨⟨0, 0, 0⟩⟩

/-- `nonLinear(x) = 1 / (1 + exp(-5 x))`, the steepened logistic sigmoid
(noncomputable because `Real.exp` is). -/
noncomputable def nonLinear (x : ℝ) : ℝ := 1 / (1 + Real.exp (-5 * x))

/-- `Node.activate`, with the activation function a parameter so the
evaluator itself stays computable: sensor nodes bypass activation, every
other node sets `output = σ(accumulator)`. -/
def Node.activate (σ : ℝ → ℝ) (n : Node) : Node :=
  if n.kind = sensorNode then n else { n with output := σ n.accumulator }

/-- `Connection` of brain.go; `from`/`to` index into the node array. -/
structure Connection where
  «from» : Nat
  «to» : Nat
  weight : ℝ

/-- `Brain` of brain.go.  The `Genes` text and cached fitness take no part
in evaluation and are modelled separately (`Member`). -/
structure Brain where
  nodes : List Node
  connections : List Connection
  Inputs : Nat
  Outputs : Nat

/-- `BuildBrain`: one node slot (kind, zeroed state) per node gene in
genome order; one edge per *enabled* connection gene (disabled ones are
dropped from the evaluable graph); `Inputs`/`Outputs` count sensor/output
node genes.  An unrecognized payload is `log.Fatalf` in Go; genomes here
are already tagged.  ℚ weights coerce to ℝ. -/
noncomputable def BuildBrain (genes : AGenome) : Brain :=
  genes.foldl
    (fun br g =>
      match g with
      | .node ng =>
        let br := { br with nodes := br.nodes ++ [⟨ng.kind, 0, 0⟩] }
        if ng.kind = sensorNode then { br with Inputs := br.Inputs + 1 }
        else if ng.kind = outputNode then { br with Outputs := br.Outputs + 1 }
        else br
      | .conn cg =>
        if cg.enabled then
          { br with connections := br.connections ++ [⟨cg.«from», cg.«to», (cg.weight : ℝ)⟩] }
        else br)
    ⟨[], [], 0, 0⟩

/-- `Brain.ReasonAbout`: clear every accumulator (outputs persist across
calls), load the input vector into the sensor slots' outputs, add
`output[from] * weight` into `accumulator[to]` for every edge, activate
every node, read the outputs from slots `Inputs .. Inputs+Outputs-1`.
Go panics on out-of-range indexing; the model totalises those reads with
a default node and inputs with 0. -/
def ReasonAbout (σ : ℝ → ℝ) (b : Brain) (inputs : List ℝ) : List ℝ × Brain :=
  let nodes := b.nodes.map (fun n => { n with accumulator := 0 })
  let nodes := (List.range b.Inputs).foldl
    (fun ns i => ns.set i { ns.getD i default with output := inputs.getD i 0 }) nodes
  let nodes := b.connections.foldl
    (fun ns c =>
      let x := (ns.getD c.«from» default).output
      ns.set c.«to» { ns.getD c.«to» default with
        accumulator := (ns.getD c.«to» default).accumulator + x * c.weight }) nodes
  let nodes := nodes.map (Node.activate σ)
  let output := (List.range b.Outputs).map
    (fun o => (nodes.getD (o + b.Inputs) default).output)
  (output, { b with nodes := nodes })

/-- The C4 genome: sensors 0 and 1, output 2, enabled connections
0 -> 2 and 1 -> 2 with weight 1.0. -/
def G4 : AGenome :=
  [.node ⟨0, sensorNode⟩, .node ⟨1, sensorNode⟩, .node ⟨2, outputNode⟩,
   .conn ⟨3, 0, 2, 1, true⟩, .conn ⟨4, 1, 2, 1, true⟩]

/-- C4: on the Brain built from `G4`, evaluating `[1,1]` yields the single
output `1/(1+exp(-10))` and evaluating `[0,0]` yields exactly `1/2`:
both sensors feed the output node's accumulator (2 resp. 0) and the
non-sensor node applies `nonLinear`, while sensors bypass activation. -/
theorem claim4_deterministic_eval :
    ((ReasonAbout nonLinear (BuildBrain G4) [1, 1]).1
      = [1 / (1 + Real.exp (-10))])
    ∧ ((ReasonAbout nonLinear (BuildBrain G4) [0, 0]).1 = [1 / 2]) := by
  constructor
  · show _ = _
    norm_num [ReasonAbout, BuildBrain, G4, Node.activate, nonLinear,
      sensorNode, outputNode, List.range_succ, List.foldl_cons, List.foldl_nil,
      List.getD, List.set]
  · show _ = _
    norm_num [ReasonAbout, BuildBrain, G4, Node.activate, nonLinear,
      sensorNode, outputNode, List.range_succ, List.foldl_cons, List.foldl_nil,
      List.getD, List.set, Real.exp_zero]

end Evo

namespace Evo

/-- The extinction loop at the top of each generation of `Optimize`: walk
the species from the last index downward and remove each one with
`timeWithoutImprovement >= 15`; walking downward makes the index shifts
of earlier removals harmless, and the Go append-splice amounts to
`eraseIdx`. -/
def extinctLoop : Nat → List Species → List Species
  | 0, l => l
  | i + 1, l =>
    extinctLoop i
      (if (l.getD i default).timeWithoutImprovement ≥ 15 then l.eraseIdx i else l)

def extinctionStep (l : List Species) : List Species := extinctLoop l.length l

theorem extinctLoop_spec :
    ∀ (i : Nat) (l : List Species), i ≤ l.length →
      extinctLoop i l
        = (l.take i).filter (fun s => s.timeWithoutImprovement < 15) ++ l.drop i := by
  intro i
  induction i with
  | zero => intro l _; simp [extinctLoop]
  | succ i ih =>
    intro l hle
    have hlt : i < l.length := by omega
    have hget : l.getD i default = l[i] := List.getD_eq_getElem l default hlt
    have htake : l.take (i + 1) = l.take i ++ [l[i]] := by
      rw [List.take_succ, List.getElem?_eq_getElem hlt]
      rfl
    have hlentake : (l.take i).length = i := by
      rw [List.length_take]; omega
    rw [extinctLoop]
    by_cases hstag : (l.getD i default).timeWithoutImprovement ≥ 15
    · rw [if_pos hstag, hget] at *
      have herase : l.eraseIdx i = l.take i ++ l.drop (i + 1) :=
        List.eraseIdx_eq_take_drop_succ l i
      have hlen : i ≤ (l.eraseIdx i).length := by
        rw [herase, List.length_append, List.length_take]
        have := List.length_drop (i + 1) l
        omega
      rw [ih _ hlen, herase, List.take_left' hlentake, List.drop_left' hlentake,
        htake, List.filter_append]
      have hsing : List.filter (fun s => s.timeWithoutImprovement < 15) [l[i]] = [] := by
        have h15 : ¬ (l[i].timeWithoutImprovement < 15) := by
          rw [hget] at hstag; omega
        simp [List.filter, h15]
      rw [hsing, List.append_nil]
    · rw [if_neg hstag]
      rw [ih _ (by omega), htake, List.filter_append]
      have hsing : List.filter (fun s => s.timeWithoutImprovement < 15) [l[i]] = [l[i]] := by
        have h15 : l[i].timeWithoutImprovement < 15 := by
          rw [hget] at hstag; omega
        simp [List.filter, h15]
      rw [hsing]
      rw [List.drop_eq_getElem_cons hlt]
      simp

def insertByFitness (m : Member) : List Member → List Member
  | [] => [m]
  | h :: t => if m.fitness ≥ h.fitness then m :: h :: t else h :: insertByFitness m t

/-- `sort.Sort(byFitness(members))`: descending fitness.  Go's sort is
unstable; ties may come out in any order there, and this model fixes one
admissible order (insertion sort). -/
def sortByFitness : List Member → List Member
  | [] => []
  | h :: t => insertByFitness h (sortByFitness t)

/-- The re-evaluated, descending-sorted member list of one species
(`s.members[j].fitness = f(b)` then `sort.Sort`). -/
def evalMembers (f : Member → ℚ) (s : Species) : List Member :=
  sortByFitness (s.members.map (fun b => { b with fitness := f b }))

/-- The champion-update loop of `updateFitnesses` (Go walks a `*Brain`
pointer; modelled by value): start from the current champion (possibly
nil) and replace it by any member with strictly greater fitness. -/
def newChampion (f : Member → ℚ) (s : Species) : Option Member :=
  (evalMembers f s).foldl
    (fun ch m =>
      match ch with
      | none => some m
      | some c => if m.fitness > c.fitness then some m else ch) s.champion

/-- The per-species block of `updateFitnesses`: record the previous
champion fitness, re-evaluate and sort the members, update the champion,
and reset the stagnation counter on strict improvement of the champion
fitness, else increment it. -/
def updateOneSpecies (f : Member → ℚ) (s : Species) : Species :=
  { s with
    members := evalMembers f s
    champion := newChampion f s
    timeWithoutImprovement :=
      if ((newChampion f s).map (fun c => c.fitness)).getD 0
          > ((s.champion.map (fun c => c.fitness)).getD 0)
        then 0 else s.timeWithoutImprovement + 1 }

/-- Champion fitness of a species (0 when the champion is nil, where Go
would fault on the dereference). -/
def champFitness (s : Species) : ℚ := (s.champion.map (fun c => c.fitness)).getD 0

/-- One `updateFitnesses` pass strictly improves the species' champion
fitness. -/
def improves (f : Member → ℚ) (s : Species) : Prop :=
  champFitness (updateOneSpecies f s) > champFitness s

instance (f : Member → ℚ) (s : Species) : Decidable (improves f s) :=
  inferInstanceAs (Decidable (champFitness (updateOneSpecies f s) > champFitness s))

/-- Generations of `updateFitnesses` passes applied to one species, with
a possibly different scoring function each generation. -/
def iterUpdate (fs : Nat → Member → ℚ) : Nat → Species → Species
  | 0, s => s
  | k + 1, s => updateOneSpecies (fs k) (iterUpdate fs k s)

theorem updateOneSpecies_stag (f : Member → ℚ) (s : Species) :
    (updateOneSpecies f s).timeWithoutImprovement
      = if improves f s then 0 else s.timeWithoutImprovement + 1 := rfl

/-- C8: species stagnation.  (i) The extinction step is exactly the
filter keeping species with stagnation counter below 15, so (ii) every
surviving species has counter < 15 and (iii) a species whose counter has
reached 15 is removed.  (iv) Each `updateFitnesses` pass without strict
champion-fitness improvement increments the counter by one, so 15
consecutive non-improving generations drive the counter to at least 15
and the species is removed at the next generation's extinction step. -/
theorem claim8_stagnation :
    (∀ l : List Species,
        extinctionStep l = l.filter (fun s => s.timeWithoutImprovement < 15))
    ∧ (∀ (l : List Species) (s : Species),
        s ∈ extinctionStep l → s.timeWithoutImprovement < 15)
    ∧ (∀ (l : List Species) (s : Species),
        15 ≤ s.timeWithoutImprovement → s ∉ extinctionStep l)
    ∧ (∀ (fs : Nat → Member → ℚ) (s : Species) (k : Nat),
        (∀ i, i < k → ¬ improves (fs i) (iterUpdate fs i s)) →
        (iterUpdate fs k s).timeWithoutImprovement
          = s.timeWithoutImprovement + k) := by
  have hfilter : ∀ l : List Species,
      extinctionStep l = l.filter (fun s => s.timeWithoutImprovement < 15) := by
    intro l
    have := extinctLoop_spec l.length l (le_refl _)
    rw [extinctionStep, this, List.take_length, List.drop_length, List.append_nil]
  refine ⟨hfilter, ?_, ?_, ?_⟩
  · intro l s hmem
    rw [hfilter] at hmem
    have := List.of_mem_filter hmem
    simpa using this
  · intro l s hstag hmem
    rw [hfilter] at hmem
    have := List.of_mem_filter hmem
    simp at this
    omega
  · intro fs s k
    induction k with
    | zero => intro _; rfl
    | succ k ih =>
      intro h
      have hk : ¬ improves (fs k) (iterUpdate fs k s) := h k (by omega)
      show (updateOneSpecies (fs k) (iterUpdate fs k s)).timeWithoutImprovement = _
      rw [updateOneSpecies_stag, if_neg hk, ih (fun i hi => h i (by omega))]
      omega

/-- Witness for C8: a species whose counter has reached exactly 15 is
removed by the extinction step. -/
theorem claim8_stagnation_witness :
    (15 ≤ (⟨[], none, 0, 15⟩ : Species).timeWithoutImprovement)
    ∧ (⟨[], none, 0, 15⟩ : Species) ∉ extinctionStep [⟨[], none, 0, 15⟩] :=
  ⟨by decide, claim8_stagnation.2.2.1 [⟨[], none, 0, 15⟩] ⟨[], none, 0, 15⟩ (by decide)⟩

end Evo

namespace Evo

/-- Float64 division with an `Option` wrapper: `none` stands for the
non-finite float results that exact rationals cannot represent
(`0/0 = NaN`, `x/0 = ±Inf`); the claims below only exercise the
`0/0 = NaN` case. -/
def floatDiv (a b : ℚ) : Option ℚ := if b = 0 then none else some (a / b)

/-- The per-species offspring quota of `Optimize`:
`int(math.Floor(sharedFitness/sumAllFitnesses*float64(N) + 0.5))`.
A `none` (NaN) propagates through the multiplication, the `+ 0.5`, the
`Floor` and the int conversion (whose result Go leaves
implementation-defined for non-finite floats — on amd64 it is the
minimal int64). -/
def nextGenerationCount (shared sum : ℚ) (N : Nat) : Option Int :=
  (floatDiv shared sum).map (fun c => ⌊c * (N : ℚ) + 1 / 2⌋)

/-- The quota list for all species: `sumAllFitnesses` is the sum of all
species' shared fitness. -/
def nextGenerationCounts (sharedFitnesses : List ℚ) (N : Nat) : List (Option Int) :=
  sharedFitnesses.map (fun s => nextGenerationCount s sharedFitnesses.sum N)

/-- C9: the claim says a zero shared-fitness sum gives every species a
zero offspring quota and never produces NaN.  In the code there is no
zero-sum guard: with two species of shared fitness 0 (e.g. every raw
fitness 0) and population size 4 the computation is `0/0`, which is NaN
(modelled `none`), not the claimed `0`. -/
theorem claim9_quota_nan :
    nextGenerationCounts [0, 0] 4 = [none, none]
    ∧ nextGenerationCounts [0, 0] 4 ≠ [some 0, some 0] :=
  of_decide_eq_true (by with_unfolding_all rfl)

/-- `tanhCutoff(i, N) = 0.5 * (1 + tanh(2*5*i/N - 5))` of evolve.go
(noncomputable because `Real.tanh` is).  It lies strictly in `(0, 1)`,
so each comparison `rand.Float64() < tanhCutoff(j, N)` can come out
either way; the culling model below therefore takes the comparison
outcomes as its oracle. -/
noncomputable def tanhCutoff (i N : Nat) : ℝ :=
  0.5 * (1 + Real.tanh (2 * 5 * i / N - 5))

/-- The culling loop of `Optimize` for one species: walk the ranks from
`N-1` down to `1` — rank 0 is never visited — and drop rank `j` exactly
when `rand.Float64() < tanhCutoff(j, N)`; `drop j` is that comparison's
outcome.  Removals only happen at the index being visited, so lower
indices keep their positions (the Go append-splice is `eraseIdx`). -/
def cullLoop (drop : Nat → Bool) : Nat → List Member → List Member
  | 0, l => l
  | j + 1, l => cullLoop drop j (if drop (j + 1) then l.eraseIdx (j + 1) else l)

def cullStep (drop : Nat → Bool) (members : List Member) : List Member :=
  cullLoop drop (members.length - 1) members

theorem cullLoop_head (drop : Nat → Bool) :
    ∀ (j : Nat) (l : List Member), (cullLoop drop j l).head? = l.head? := by
  intro j
  induction j with
  | zero => intro l; rfl
  | succ j ih =>
    intro l
    rw [cullLoop, ih]
    by_cases hd : drop (j + 1) = true
    · rw [if_pos hd]
      cases l with
      | nil => rfl
      | cons a t => rfl
    · rw [if_neg hd]

/-- C10: culling never removes the rank-0 member (the highest-fitness
member after the descending sort) whatever the draw outcomes, so a
nonempty species stays nonempty: the loop of `Optimize` runs
`for j := N-1; j > 0; j--` and never visits index 0. -/
theorem claim10_cull_keeps_best (drop : Nat → Bool) (members : List Member)
    (h : members ≠ []) :
    (cullStep drop members).head? = members.head?
    ∧ cullStep drop members ≠ [] := by
  have hh : (cullStep drop members).head? = members.head? :=
    cullLoop_head drop (members.length - 1) members
  refine ⟨hh, ?_⟩
  intro hnil
  rw [hnil] at hh
  cases hm : members with
  | nil => exact h hm
  | cons a t =>
    rw [hm] at hh
    exact absurd hh.symm (by simp)

/-- Witness for C10: a two-member species with the oracle that drops
every visited rank still keeps its best member. -/
theorem claim10_cull_keeps_best_witness :
    ((cullStep (fun _ => true) [⟨G0, 5⟩, ⟨G0, 3⟩]).head? = some ⟨G0, 5⟩)
    ∧ cullStep (fun _ => true) [⟨G0, 5⟩, ⟨G0, 3⟩] ≠ [] := by
  have h := claim10_cull_keeps_best (fun _ => true) [⟨G0, 5⟩, ⟨G0, 3⟩]
    (List.cons_ne_nil _ _)
  exact ⟨h.1, h.2⟩

end Evo

namespace Evo

/-- One member's step of `updateSpeciation` for one species.  Go's
`for j, b := range s.members` iterates over the slice header captured at
loop entry (`snapshot`, of length `startSize`) while `s.members`
(`cur`) shrinks through removals; `b` is the element at the *forward*
index `jf` of the captured slice, while the distance test and the
removal use the *reversed* index `j = startSize-1-jf` into the current
slice.  A member at reversed index `j` whose distance to the species
champion exceeds 3 either joins the first already-created new species
within distance 3 of that species' first member — `b`, the
forward-index element, is appended there and nothing is removed — or,
when no new species matches and the current species would keep at least
one member, seeds a new one-member species `{b}` while the reversed
index `j` is spliced out.  (The Go middle-element splice
`append(s.members[:j], s.members[j+1:]...)` also shifts the captured
array in place; the model keeps the snapshot immutable, which agrees
with Go whenever every splice happens at the tail `j = len-1`, as in
the concrete run below.) -/
def speciateMemberStep (champG : AGenome) (snapshot : List Member)
    (startSize jf : Nat) (cur : List Member) (newSpecies : List Species) :
    List Member × List Species :=
  let b := snapshot.getD jf default
  let j := startSize - 1 - jf
  let g := (cur.getD j default).genome
  if CompatibilityDistance champG g > 3 then
    match newSpecies.findIdx?
        (fun ns => CompatibilityDistance g ((ns.members.getD 0 default).genome) < 3) with
    | some k =>
      (cur, newSpecies.set k
        { newSpecies.getD k default with
          members := (newSpecies.getD k default).members ++ [b] })
    | none =>
      if cur.length > 1 then
        (cur.eraseIdx j, newSpecies ++ [⟨[b], none, 0, 0⟩])
      else (cur, newSpecies)
  else (cur, newSpecies)

/-- The member loop of `updateSpeciation` for one species: forward
indices `jf = 0 .. startSize-1`. -/
def speciateLoop (champG : AGenome) (snapshot : List Member) (startSize : Nat) :
    Nat → Nat → List Member → List Species → List Member × List Species
  | 0, _, cur, newSpecies => (cur, newSpecies)
  | remaining + 1, jf, cur, newSpecies =>
    let (cur, newSpecies) :=
      speciateMemberStep champG snapshot startSize jf cur newSpecies
    speciateLoop champG snapshot startSize remaining (jf + 1) cur newSpecies

def speciateOneSpecies (s : Species) (newSpecies : List Species) :
    Species × List Species :=
  let champG := (s.champion.map (fun c => c.genome)).getD []
  let startSize := s.members.length
  let (cur, newSpecies) :=
    speciateLoop champG s.members startSize startSize 0 s.members newSpecies
  ({ s with members := cur }, newSpecies)

def speciateAll : List Species → List Species → List Species × List Species
  | [], newSpecies => ([], newSpecies)
  | s :: rest, newSpecies =>
    let (s', newSpecies) := speciateOneSpecies s newSpecies
    let (rest', newSpecies) := speciateAll rest newSpecies
    (s' :: rest', newSpecies)

/-- `updateSpeciation`: run the pass over every species and append the
newly created species to the population. -/
def updateSpeciation (species : List Species) : List Species :=
  let (species', newSpecies) := speciateAll species []
  species' ++ newSpecies

/-- `Population.size`: total member count over all species. -/
def popSize (species : List Species) : Nat :=
  (species.map (fun s => s.members.length)).sum

/-- The 1-sensor/1-output genome with connection weight `w`; any two of
these have compatibility distance `0.4 * |w - w'|`. -/
def gW (w : ℚ) : AGenome :=
  [.node ⟨0, sensorNode⟩, .node ⟨1, outputNode⟩, .conn ⟨2, 0, 1, w, true⟩]

/-- C7: the claim says every member placed into a newly-created species
during re-speciation — whether it seeds one or joins one — is removed
from its original species, so the total member count is preserved.  In
the code the joining branch performs no removal at all, and the member
appended is the forward-index element while the reverse-index element is
the one tested and spliced.  Concretely: one species with members of
connection weights 7, 9, 10, champion weight 0 (distances 2.8, 3.6, 4).
Pass: jf=0 tests w=10 (distance 4 > 3), seeds a new species — with the
forward member w=7 — and splices w=10 out; jf=1 tests w=9 (3.6 > 3),
which joins the new species (distance to its first member 0.8 < 3)
without being removed; jf=2 tests w=7 (2.8, kept).  The population goes from
3 members to 4 (w=7 now lives in two species and w=10 is lost). -/
theorem claim7_respeciation_grows_population :
    popSize (updateSpeciation
        [⟨[⟨gW 7, 0⟩, ⟨gW 9, 0⟩, ⟨gW 10, 0⟩], some ⟨gW 0, 0⟩, 0, 0⟩]) = 4
    ∧ popSize [⟨[⟨gW 7, 0⟩, ⟨gW 9, 0⟩, ⟨gW 10, 0⟩], some ⟨gW 0, 0⟩, 0, 0⟩] = 3
    ∧ (updateSpeciation
        [⟨[⟨gW 7, 0⟩, ⟨gW 9, 0⟩, ⟨gW 10, 0⟩], some ⟨gW 0, 0⟩, 0, 0⟩]).map
          (fun s => s.members.map (fun m => m.genome))
      = [[gW 7, gW 9], [gW 7, gW 9]] :=
  of_decide_eq_true (by with_unfolding_all rfl)

end Evo
